import Mathlib

/-!
Shallow embedding of the news-ingestion service in src/both.js.

The embedding models, line for line:
  - extractMediaUrl (both.js lines 68-138) over a small model of JS values,
    including JS truthiness, property access (which throws on null and
    undefined receivers), typeof checks, and the String.prototype.startsWith
    call (which throws on truthy non-string receivers);
  - summarizeContent (lines 141-196) with its length-based retry loop, the
    external summarization service being an oracle from attempt number and
    prompt kind to a response;
  - processNews (lines 199-268) with the dedup query, the freshness check,
    the extraction call, the summarization call, the two inserts, and the
    top-level catch that maps every thrown error to the null result;
  - fetchAndProcessNews (lines 271-321) with feed aggregation, the
    per-run cap, the walk with the inter-success 12-second delay, and the
    try/finally closing the DB pool.
External effects (HTTP calls, DB queries, clock) are supplied by an Env
record of oracles; the DB is explicit state threaded through the run.
-/

/-- Model of a JavaScript value, as far as extractMediaUrl inspects item
shapes: undefined, null, booleans, numbers, strings, arrays and objects. -/
inductive JValue where
  | undefined : JValue
  | null : JValue
  | bool : Bool → JValue
  | num : Int → JValue
  | str : String → JValue
  | arr : List JValue → JValue
  | obj : List (String × JValue) → JValue

/-- JS truthiness: undefined, null, false, 0 and the empty string are falsy. -/
def truthy : JValue → Bool
  | .undefined => false
  | .null => false
  | .bool b => b
  | .num n => n != 0
  | .str s => s != ""
  | .arr _ => true
  | .obj _ => true

/-- A value on which property access throws a TypeError (null or undefined). -/
def jNullish : JValue → Bool
  | .undefined => true
  | .null => true
  | _ => false

/-- JS typeof x === 'object' (true for objects, arrays and null). -/
def typeofObj : JValue → Bool
  | .null => true
  | .arr _ => true
  | .obj _ => true
  | _ => false

/-- First binding of a key in an object's field list (JS object keys are
unique, so first-match lookup is exact); absent keys read as undefined. -/
def jlookup (k : String) : List (String × JValue) → JValue
  | [] => .undefined
  | (k2, v) :: rest => if k2 = k then v else jlookup k rest

/-- Property access v[k] on a non-nullish receiver: a field of an object,
undefined on every other receiver (numbers, strings, booleans, arrays have
none of the probed named properties). -/
def jget : JValue → String → JValue
  | .obj fs, k => jlookup k fs
  | _, _ => .undefined

/-- Element 0 of a JS array (undefined when empty), for mediaContent[0]. -/
def jhd : List JValue → JValue
  | [] => .undefined
  | x :: _ => x

/-- JS strict equality of a value against a string literal. -/
def jstreq (v : JValue) (s : String) : Bool :=
  match v with
  | .str t => t == s
  | _ => false

/-- JS a || b. -/
def jsOr (a b : JValue) : JValue :=
  if truthy a then a else b

/-- Prefix test on character lists. -/
def startsWithChars : List Char → List Char → Bool
  | _, [] => true
  | [], _ :: _ => false
  | c :: cs, p :: ps => c == p && startsWithChars cs ps

/-- JS String.prototype.startsWith: the receiver starts with the given
prefix string. -/
def jsStartsWith (s pre : String) : Bool :=
  startsWithChars s.data pre.data

/-- JS Array.isArray as a projection: the element list when the value is
an array, none otherwise. -/
def asArr : JValue → Option (List JValue)
  | .arr xs => some xs
  | _ => none

/-- Array.prototype.find with a callback that may throw: stops at the first
element whose predicate is true, propagating any thrown error. -/
def findE (p : JValue → Except Unit Bool) : List JValue → Except Unit (Option JValue)
  | [] => .ok none
  | x :: xs =>
    match p x with
    | .error e => .error e
    | .ok true => .ok (some x)
    | .ok false => findE p xs

/-- Callback of both media-content finds (both.js lines 77-78 and 99-100):
media.$ && (media.$.medium === 'image' || (media.$.type &&
media.$.type.startsWith('image/'))). Accessing .$ on a null or undefined
element throws, as does .startsWith on a truthy non-string type. -/
def isImageMediaPred (media : JValue) : Except Unit Bool :=
  if jNullish media then .error ()
  else
    let d := jget media "$"
    if truthy d then
      if jstreq (jget d "medium") "image" then .ok true
      else
        let t := jget d "type"
        if truthy t then
          match t with
          | .str s => .ok (jsStartsWith s "image/")
          | _ => .error ()
        else .ok false
    else .ok false

/-- Callback of the enclosure find (both.js lines 120-121):
e.$ && e.$.type && e.$.type.startsWith('image/'). -/
def isImageEnclosurePred (e : JValue) : Except Unit Bool :=
  if jNullish e then .error ()
  else
    let d := jget e "$"
    if truthy d then
      let t := jget d "type"
      if truthy t then
        match t with
        | .str s => .ok (jsStartsWith s "image/")
        | _ => .error ()
      else .ok false
    else .ok false

/-- Method 1 (both.js lines 72-93): media:content as direct property.
Takes the current imageUrl and returns its value after this block. -/
def method1 (item : JValue) (cur : JValue) : Except Unit JValue :=
  let mc := jget item "media:content"
  if truthy mc then
    match asArr mc with
    | some xs =>
      match findE isImageMediaPred xs with
      | .error e => .error e
      | .ok found =>
        let imageMedia := match found with | some m => m | none => JValue.undefined
        if truthy imageMedia && truthy (jget imageMedia "$") then
          .ok (jget (jget imageMedia "$") "url")
        else if truthy (jhd xs) && truthy (jget (jhd xs) "$") then
          .ok (jget (jget (jhd xs) "$") "url")
        else .ok cur
    | none =>
      if truthy (jget mc "$") then .ok (jget (jget mc "$") "url")
      else if typeofObj mc then
        .ok (jsOr (jget mc "url") (jsOr (jget mc "@_url") (.str "")))
      else .ok cur
  else .ok cur

/-- Method 2 (both.js lines 96-105): nested media namespace structure,
guarded by !imageUrl && item.media && item.media.content. -/
def method2 (item : JValue) (cur : JValue) : Except Unit JValue :=
  let media := jget item "media"
  if !truthy cur && truthy media && truthy (jget media "content") then
    let mc := jget media "content"
    match asArr mc with
    | some xs =>
      match findE isImageMediaPred xs with
      | .error e => .error e
      | .ok found =>
        let m := jsOr (match found with | some x => x | none => JValue.undefined) (jhd xs)
        if truthy m && truthy (jget m "$") then
          .ok (jget (jget m "$") "url")
        else .ok (.str "")
    | none =>
      if truthy (jget mc "$") then .ok (jget (jget mc "$") "url")
      else .ok cur
  else .ok cur

/-- Method 3 (both.js lines 108-115): media:thumbnail. No call is made on
any attribute value here, so this block never throws. -/
def method3 (item : JValue) (cur : JValue) : Except Unit JValue :=
  let th := jget item "media:thumbnail"
  if !truthy cur && truthy th then
    if truthy (jget th "$") then .ok (jget (jget th "$") "url")
    else if typeofObj th then
      .ok (jsOr (jget th "url") (jsOr (jget th "@_url") (.str "")))
    else .ok cur
  else .ok cur

/-- Flattened-attribute tail of method 4 (both.js lines 129-134):
typeof item.enclosure === 'object', then enclosure.type.startsWith check. -/
def method4Tail (enc cur : JValue) : Except Unit JValue :=
  if typeofObj enc then
    let t := jget enc "type"
    if truthy t then
      match t with
      | .str s =>
        if jsStartsWith s "image/" then .ok (jsOr (jget enc "url") (.str ""))
        else .ok cur
      | _ => .error ()
    else .ok cur
  else .ok cur

/-- Method 4 (both.js lines 118-135): enclosure, image-typed only. -/
def method4 (item : JValue) (cur : JValue) : Except Unit JValue :=
  let enc := jget item "enclosure"
  if !truthy cur && truthy enc then
    match asArr enc with
    | some xs =>
      match findE isImageEnclosurePred xs with
      | .error e => .error e
      | .ok found =>
        let ie := match found with | some m => m | none => JValue.undefined
        if truthy ie && truthy (jget ie "$") then
          .ok (jget (jget ie "$") "url")
        else .ok cur
    | none =>
      let d := jget enc "$"
      if truthy d && truthy (jget d "type") then
        match jget d "type" with
        | .str s =>
          if jsStartsWith s "image/" then .ok (jget d "url")
          else method4Tail enc cur
        | _ => .error ()
      else method4Tail enc cur
  else .ok cur

/-- extractMediaUrl (both.js lines 68-138): starts from imageUrl = '' and
runs the four probing methods in order; .error models a thrown TypeError,
.ok v the returned value (v need not be a string for arbitrary shapes). -/
def extractMediaUrl (item : JValue) : Except Unit JValue :=
  if jNullish item then .error ()
  else
    match method1 item (.str "") with
    | .error e => .error e
    | .ok u1 =>
      match method2 item u1 with
      | .error e => .error e
      | .ok u2 =>
        match method3 item u2 with
        | .error e => .error e
        | .ok u3 => method4 item u3

/-- JS String.prototype.trim on the underlying character list. -/
def jsTrim (s : String) : String :=
  ⟨((s.data.dropWhile Char.isWhitespace).reverse.dropWhile Char.isWhitespace).reverse⟩

/-- Number of maximal whitespace-free runs in a character list; the Bool
argument records whether the previous character was inside a word. -/
def countWordsAux : List Char → Bool → Nat
  | [], _ => 0
  | c :: cs, inWord =>
    if c.isWhitespace then countWordsAux cs false
    else (if inWord then 0 else 1) + countWordsAux cs true

/-- JS s.split(/\s+/).length for a trimmed non-empty string s: the number
of whitespace-separated words. -/
def jsWordCount (s : String) : Nat :=
  countWordsAux s.data false

/-- Which of the two prompts the summarizer sends (both.js lines 145-168):
the primary prompt on the first attempt, the escalated one on retries. -/
inductive PromptKind where
  | primary : PromptKind
  | escalated : PromptKind
deriving DecidableEq

/-- Prompt selection from the retry counter (both.js line 145). -/
def promptFor (retryCount : Nat) : PromptKind :=
  if retryCount = 0 then .primary else .escalated

/-- summarizeContent (both.js lines 141-196). The external service is an
oracle from attempt number and prompt kind to a response: .error models the
axios call throwing, .ok none a response with no usable message content,
.ok (some raw) a response whose content is raw. Returns the summary the JS
function returns (none for null or undefined) and the number of external
calls made. -/
def summarizeContent (oracle : Nat → PromptKind → Except Unit (Option String))
    (retryCount : Nat) : Option String × Nat :=
  match oracle retryCount (promptFor retryCount) with
  | .error _ => (none, 1)
  | .ok none => (none, 1)
  | .ok (some raw) =>
    let summary := jsTrim raw
    let wordCount := if summary != "" then jsWordCount summary else 0
    if h : summary != "" ∧ wordCount < 50 ∧ retryCount < 4 then
      let r := summarizeContent oracle (retryCount + 1)
      (r.1, r.2 + 1)
    else (some summary, 1)
termination_by 4 - retryCount
decreasing_by
  simp_wf
  omega

example : jsWordCount "a bc  d" = 3 := by decide
example : jsTrim "  ab c " = "ab c" := by decide

/-- A row of the rss_feeds table as fetchRSSFeeds returns it (both.js
line 42): feed URL and its category id (NULL modelled as none, and a JS
falsy 0 is allowed as some 0). -/
structure FeedRow where
  rss_url : String
  category_id : Option Nat

/-- JS truthiness of the category id read from the DB. -/
def catTruthy : Option Nat → Bool
  | none => false
  | some n => n != 0

/-- A raw feed item as rss-parser yields it: the typed fields the
aggregation loop reads (both.js lines 284-291), plus the raw shape probed
by extractMediaUrl. A missing pubDate is the empty string (falsy). -/
structure RawItem where
  title : String
  link : String
  pubDate : String
  media : JValue

/-- A parsed feed (both.js line 279): its title and its items. -/
structure ParsedFeed where
  title : String
  items : List RawItem

/-- A candidate pushed onto newsLinks (both.js lines 284-291). -/
structure NewsItem where
  title : String
  link : String
  source : String
  image : JValue
  categoryId : Option Nat
  pubDate : String

/-- A row of the blogs table as the insert writes it (both.js lines
234-248). -/
structure BlogRow where
  rowType : String
  title : String
  description : String
  source_img : JValue
  source_name : String
  source_link : String
  created_by : Nat
  status : Nat
  pub_date : String

/-- A row of the blog_categories table (both.js lines 255-258). -/
structure CatRow where
  blog_id : Nat
  category_id : Nat
  kind : String

/-- The mutable database state threaded through a run: the blogs rows, the
blog_categories rows and the next auto-increment id the blogs table will
hand out. -/
structure DbState where
  blogs : List BlogRow
  blogCats : List CatRow
  nextId : Nat

/-- The external world of one run: clock and date parsing, the feed list
query, feed fetching and parsing, the extraction service, the
summarization service, the starting DB state, and whether each of the two
inserts succeeds for a given source link (false models the execute call
throwing). -/
structure Env where
  today : Nat × Nat × Nat
  parseDate : String → Option (Nat × Nat × Nat)
  nowIso : String
  initialDb : DbState
  feeds : Except Unit (List FeedRow)
  parseURL : String → Except Unit ParsedFeed
  diffbot : String → Except Unit (Option String)
  summarize : String → Nat → PromptKind → Except Unit (Option String)
  blogInsertOk : String → Bool
  catInsertOk : String → Bool

/-- isNewsProcessed (both.js lines 47-50): a blogs row with this
source_link exists in the current DB state. -/
def isNewsProcessed (st : DbState) (url : String) : Bool :=
  st.blogs.any (fun b => b.source_link == url)

/-- isNewsFromToday (both.js lines 53-62): false for a falsy pubDate; an
unparsable date (an Invalid Date, whose components are NaN) compares false;
otherwise day, month and year must all match today. -/
def isNewsFromToday (env : Env) (pubDate : String) : Bool :=
  if pubDate == "" then false
  else
    match env.parseDate pubDate with
    | none => false
    | some d => d == env.today

/-- How many calls one candidate made to the paid external services. -/
structure Counts where
  extractCalls : Nat
  summarizeCalls : Nat
deriving DecidableEq

/-- What processNews returns and leaves behind: the returned value (none
for null), the DB state after it, and the external-call counts. -/
structure ProcOut where
  result : Option Nat
  db : DbState
  counts : Counts

/-- processNews (both.js lines 199-268). The surrounding try/catch turns
every thrown error (extraction call, summarization call, either insert)
into the null result, keeping whatever DB writes already happened. -/
def processNews (env : Env) (st : DbState) (it : NewsItem) : ProcOut :=
  if isNewsProcessed st it.link then ⟨none, st, ⟨0, 0⟩⟩
  else if !isNewsFromToday env it.pubDate then ⟨none, st, ⟨0, 0⟩⟩
  else
    match env.diffbot it.link with
    | .error _ => ⟨none, st, ⟨1, 0⟩⟩
    | .ok none => ⟨none, st, ⟨1, 0⟩⟩
    | .ok (some text) =>
      if text == "" then ⟨none, st, ⟨1, 0⟩⟩
      else
        let sr := summarizeContent (env.summarize text) 0
        match sr.1 with
        | none => ⟨none, st, ⟨1, sr.2⟩⟩
        | some s =>
          if s == "" || jsWordCount s < 50 then ⟨none, st, ⟨1, sr.2⟩⟩
          else
            let row : BlogRow :=
              ⟨"post", it.title, s, it.image, it.source, it.link, 1, 1, it.pubDate⟩
            if env.blogInsertOk it.link then
              let id := st.nextId
              let st1 : DbState := ⟨st.blogs ++ [row], st.blogCats, st.nextId + 1⟩
              if id != 0 && catTruthy it.categoryId then
                if env.catInsertOk it.link then
                  ⟨some id,
                   ⟨st1.blogs, st1.blogCats ++ [⟨id, it.categoryId.getD 0, "category"⟩],
                    st1.nextId⟩,
                   ⟨1, sr.2⟩⟩
                else ⟨none, st1, ⟨1, sr.2⟩⟩
              else ⟨some id, st1, ⟨1, sr.2⟩⟩
            else ⟨none, st, ⟨1, sr.2⟩⟩

/-- The forEach body of the aggregation loop (both.js lines 280-292) over
one feed's items: each item is pushed with its extracted image; if
extractMediaUrl throws, the per-feed catch fires, so the remaining items
of this feed are dropped while the already-pushed ones stay. -/
def pushItems (env : Env) (src : String) (cat : Option Nat) : List RawItem → List NewsItem
  | [] => []
  | it :: rest =>
    match extractMediaUrl it.media with
    | .error _ => []
    | .ok img =>
      ⟨it.title, it.link, src, img, cat,
       if it.pubDate != "" then it.pubDate else env.nowIso⟩ :: pushItems env src cat rest

/-- The feed loop (both.js lines 277-296): each feed is fetched and parsed
independently; a parse failure skips that feed only. -/
def aggregate (env : Env) : List FeedRow → List NewsItem
  | [] => []
  | f :: rest =>
    (match env.parseURL f.rss_url with
     | .error _ => []
     | .ok pf => pushItems env pf.title f.category_id pf.items) ++ aggregate env rest

/-- The aggregated newsLinks list of a run ([] when loading the feed list
itself fails, in which case the loop is never reached). -/
def aggregateOf (env : Env) : List NewsItem :=
  match env.feeds with
  | .error _ => []
  | .ok fs => aggregate env fs

/-- Observable outcome of the processing loop: the processed count, the
final DB state, how many 12-second delays were awaited, and the attempted
candidates in order, each with whether it succeeded. -/
structure LoopOut where
  pc : Nat
  db : DbState
  delays : Nat
  attempts : List (String × Bool)

/-- The processing loop (both.js lines 304-313): walk the candidates in
order while processedCount < itemsToProcess; a success increments the
count and, if the cap is not yet reached, awaits the 12-second delay. -/
def runLoop (env : Env) (cap : Nat) : List NewsItem → DbState → Nat → LoopOut
  | [], st, pc => ⟨pc, st, 0, []⟩
  | it :: rest, st, pc =>
    if pc < cap then
      let p := processNews env st it
      match p.result with
      | some _ =>
        let out := runLoop env cap rest p.db (pc + 1)
        ⟨out.pc, out.db,
         out.delays + (if pc + 1 < cap then 1 else 0),
         (it.link, true) :: out.attempts⟩
      | none =>
        let out := runLoop env cap rest p.db pc
        ⟨out.pc, out.db, out.delays, (it.link, false) :: out.attempts⟩
    else ⟨pc, st, 0, []⟩

/-- Observable outcome of one whole run: the value the function settles
with (the processed count, or the propagated run-level error), the final
DB state, whether db.end() ran, the computed itemsToProcess cap, the delay
count, and the attempt record. -/
structure RunOutcome where
  result : Except Unit Nat
  db : DbState
  dbClosed : Bool
  cap : Nat
  delays : Nat
  attempts : List (String × Bool)

/-- fetchAndProcessNews (both.js lines 271-321): load the feed rows (an
error here propagates after the finally block closes the pool), aggregate,
cap at Math.min(3, newsLinks.length), run the loop, and close the pool on
every exit path. -/
def fetchAndProcessNews (env : Env) : RunOutcome :=
  match env.feeds with
  | .error e => ⟨.error e, env.initialDb, true, 0, 0, []⟩
  | .ok fs =>
    let newsLinks := aggregate env fs
    let itemsToProcess := min 3 newsLinks.length
    let out := runLoop env itemsToProcess newsLinks env.initialDb 0
    ⟨.ok out.pc, out.db, true, itemsToProcess, out.delays, out.attempts⟩

/-- The processed count a run reports (0 on the error path, where the
count never materializes). -/
def processedOf (o : RunOutcome) : Nat :=
  match o.result with
  | .ok n => n
  | .error _ => 0

/-- Modelled from the spec: the set of candidates surviving the
dedup/freshness filter of spec section 4.3 and step 3 of section 4.6 — the
aggregated candidates not already persisted (against the DB state at run
start) and published today. The source computes no such list; this
definition exists to compare the spec's itemsToProcess formula with the
code's. -/
def survivorsSpec (env : Env) : List NewsItem :=
  (aggregateOf env).filter
    (fun it => !isNewsProcessed env.initialDb it.link && isNewsFromToday env it.pubDate)

/-- The value summarizeContent returns when the loop stops at a given
response: null on a thrown call, undefined on missing content, otherwise
the trimmed content. None models both null and undefined. -/
def respSummary (resp : Except Unit (Option String)) : Option String :=
  match resp with
  | .error _ => none
  | .ok none => none
  | .ok (some raw) => some (jsTrim raw)

/-- Whether a response triggers the length-based retry: content present,
nonempty after trimming, and under 50 words. -/
def isShort (resp : Except Unit (Option String)) : Bool :=
  match resp with
  | .ok (some raw) => jsTrim raw != "" && decide (jsWordCount (jsTrim raw) < 50)
  | _ => false

/-- Full characterization of the retry loop from any retry counter with at
most 4 - rc retries left: at least one and at most 5 - rc calls are made,
every attempt before the last triggered the retry condition, the returned
value is the last response's summary, and if the loop stopped before
exhausting the retry budget the last response did not trigger a retry. -/
theorem summarizeContent_spec (oracle : Nat → PromptKind → Except Unit (Option String))
    (n rc : Nat) (hn : rc + n = 4) :
    1 ≤ (summarizeContent oracle rc).2 ∧
    (summarizeContent oracle rc).2 ≤ 5 - rc ∧
    (∀ i, rc ≤ i → i + 1 < rc + (summarizeContent oracle rc).2 →
      isShort (oracle i (promptFor i)) = true) ∧
    (summarizeContent oracle rc).1 =
      respSummary (oracle (rc + (summarizeContent oracle rc).2 - 1)
        (promptFor (rc + (summarizeContent oracle rc).2 - 1))) ∧
    (rc + (summarizeContent oracle rc).2 - 1 < 4 →
      isShort (oracle (rc + (summarizeContent oracle rc).2 - 1)
        (promptFor (rc + (summarizeContent oracle rc).2 - 1))) = false) := by
  induction n generalizing rc with
  | zero =>
    have hrc : rc = 4 := by omega
    subst hrc
    rcases hor : oracle 4 (promptFor 4) with e | op
    · have heq : summarizeContent oracle 4 = (none, 1) := by
        rw [summarizeContent.eq_def, hor]
      rw [heq]
      refine ⟨by omega, by omega, ?_, ?_, ?_⟩
      · intro i h1 h2; omega
      · simp [respSummary, hor]
      · intro h; omega
    · rcases op with _ | raw
      · have heq : summarizeContent oracle 4 = (none, 1) := by
          rw [summarizeContent.eq_def, hor]
        rw [heq]
        refine ⟨by omega, by omega, ?_, ?_, ?_⟩
        · intro i h1 h2; omega
        · simp [respSummary, hor]
        · intro h; omega
      · have heq : summarizeContent oracle 4 = (some (jsTrim raw), 1) := by
          rw [summarizeContent.eq_def, hor]
          exact dif_neg (fun hc => absurd hc.2.2 (by omega))
        rw [heq]
        refine ⟨by omega, by omega, ?_, ?_, ?_⟩
        · intro i h1 h2; omega
        · simp [respSummary, hor]
        · intro h; omega
  | succ m ih =>
    have hrc : rc < 4 := by omega
    rcases hor : oracle rc (promptFor rc) with e | op
    · have heq : summarizeContent oracle rc = (none, 1) := by
        rw [summarizeContent.eq_def, hor]
      rw [heq]
      refine ⟨by omega, by omega, ?_, ?_, ?_⟩
      · intro i h1 h2; omega
      · simp [respSummary, hor]
      · intro h; simp [isShort, hor]
    · rcases op with _ | raw
      · have heq : summarizeContent oracle rc = (none, 1) := by
          rw [summarizeContent.eq_def, hor]
        rw [heq]
        refine ⟨by omega, by omega, ?_, ?_, ?_⟩
        · intro i h1 h2; omega
        · simp [respSummary, hor]
        · intro h; simp [isShort, hor]
      · by_cases hcond : (jsTrim raw != "") = true ∧
          (if (jsTrim raw != "") = true then jsWordCount (jsTrim raw) else 0) < 50 ∧
          rc < 4
        · have heq : summarizeContent oracle rc =
              ((summarizeContent oracle (rc + 1)).1,
               (summarizeContent oracle (rc + 1)).2 + 1) := by
            rw [summarizeContent.eq_def, hor]
            exact dif_pos hcond
          have hWlt : jsWordCount (jsTrim raw) < 50 := by
            have h2 := hcond.2.1
            rwa [if_pos hcond.1] at h2
          have hshort : isShort (oracle rc (promptFor rc)) = true := by
            simp [isShort, hor, hcond.1, hWlt]
          obtain ⟨ih1, ih2, ih3, ih4, ih5⟩ := ih (rc + 1) (by omega)
          rw [heq]
          have hidx : rc + ((summarizeContent oracle (rc + 1)).2 + 1) - 1 =
              rc + 1 + (summarizeContent oracle (rc + 1)).2 - 1 := by omega
          refine ⟨by omega, by omega, ?_, ?_, ?_⟩
          · intro i h1 h2
            rcases Nat.eq_or_lt_of_le h1 with h | h
            · rw [← h]; exact hshort
            · exact ih3 i (by omega) (by omega)
          · rw [hidx]; exact ih4
          · rw [hidx]; intro h; exact ih5 (by omega)
        · have heq : summarizeContent oracle rc = (some (jsTrim raw), 1) := by
            rw [summarizeContent.eq_def, hor]
            exact dif_neg hcond
          have hnotshort : isShort (oracle rc (promptFor rc)) = false := by
            by_cases hS : (jsTrim raw != "") = true
            · have hW : ¬ jsWordCount (jsTrim raw) < 50 := by
                intro hlt
                exact hcond ⟨hS, by rwa [if_pos hS], hrc⟩
              simp [isShort, hor, hW]
            · simp only [bne_iff_ne, ne_eq, decide_eq_true_eq] at hS
              simp only [not_not] at hS
              simp [isShort, hor, hS]
          rw [heq]
          refine ⟨by omega, by omega, ?_, ?_, ?_⟩
          · intro i h1 h2; omega
          · simp [respSummary, hor]
          · intro h; simpa using hnotshort

/-- A string of n words, each the single letter w, separated by spaces. -/
def mkWords (n : Nat) : String :=
  String.intercalate " " (List.replicate n "w")

/-- An oracle whose every response is a 30-word text. -/
def orShort : Nat → PromptKind → Except Unit (Option String) :=
  fun _ _ => .ok (some (mkWords 30))

/-- Against the always-short oracle, the summarizer makes all 5 calls and
returns the last short text. -/
theorem orShort_eval : summarizeContent orShort 0 = (some (mkWords 30), 5) := by
  have htrim : jsTrim (mkWords 30) = mkWords 30 := by decide
  have hstep : ∀ rc, rc < 4 → summarizeContent orShort rc =
      ((summarizeContent orShort (rc + 1)).1, (summarizeContent orShort (rc + 1)).2 + 1) := by
    intro rc h
    rw [summarizeContent.eq_def]
    exact dif_pos ⟨by decide, by decide, h⟩
  have hbase : summarizeContent orShort 4 = (some (jsTrim (mkWords 30)), 1) := by
    rw [summarizeContent.eq_def]
    exact dif_neg (by decide)
  rw [hstep 0 (by omega), hstep 1 (by omega), hstep 2 (by omega), hstep 3 (by omega),
    hbase, htrim]

/-- C1: the summarizer makes at most 5 external calls; attempt 0 uses the
primary prompt and every retry the escalated one; every attempt before the
last returned a nonempty text under 50 words (so the loop retried), the
returned value is the last response's summary (its trimmed text, or none
when that call errored), and a loop that stopped with retry budget left
did so only because the last response did not trigger the retry (in
particular the first text of word count at least 50 is returned). -/
theorem claim_C1_summarizer_retry (oracle : Nat → PromptKind → Except Unit (Option String)) :
    1 ≤ (summarizeContent oracle 0).2 ∧
    (summarizeContent oracle 0).2 ≤ 5 ∧
    promptFor 0 = PromptKind.primary ∧
    (∀ i, i ≠ 0 → promptFor i = PromptKind.escalated) ∧
    (∀ i, i + 1 < (summarizeContent oracle 0).2 → isShort (oracle i (promptFor i)) = true) ∧
    (summarizeContent oracle 0).1 =
      respSummary (oracle ((summarizeContent oracle 0).2 - 1)
        (promptFor ((summarizeContent oracle 0).2 - 1))) ∧
    ((summarizeContent oracle 0).2 - 1 < 4 →
      isShort (oracle ((summarizeContent oracle 0).2 - 1)
        (promptFor ((summarizeContent oracle 0).2 - 1))) = false) := by
  obtain ⟨h1, h2, h3, h4, h5⟩ := summarizeContent_spec oracle 4 0 rfl
  simp only [Nat.zero_add] at h2 h3 h4 h5
  refine ⟨h1, by omega, rfl, ?_, fun i hi => h3 i (Nat.zero_le i) (by omega), h4, h5⟩
  intro i hi
  simp [promptFor, hi]

/-- Witness for C1: instantiating the theorem at the always-short oracle
shows the first attempt indeed triggered the retry condition. -/
theorem claim_C1_witness : isShort (orShort 0 (promptFor 0)) = true :=
  (claim_C1_summarizer_retry orShort).2.2.2.2.1 0 (by rw [orShort_eval]; decide)

/-- C10: a response without error but without usable content returns
immediately with a single call (none for missing content, the empty string
for content that trims to empty); conversely, a second call happens only
when the first response was a nonempty text under 50 words. -/
theorem claim_C10_no_retry_on_unusable (oracle : Nat → PromptKind → Except Unit (Option String)) :
    (oracle 0 (promptFor 0) = .ok none → summarizeContent oracle 0 = (none, 1)) ∧
    (∀ raw, oracle 0 (promptFor 0) = .ok (some raw) → jsTrim raw = "" →
      summarizeContent oracle 0 = (some "", 1)) ∧
    (1 < (summarizeContent oracle 0).2 →
      ∃ raw, oracle 0 (promptFor 0) = .ok (some raw) ∧ jsTrim raw ≠ "" ∧
        jsWordCount (jsTrim raw) < 50) := by
  refine ⟨?_, ?_, ?_⟩
  · intro h
    rw [summarizeContent.eq_def, h]
  · intro raw h hE
    rw [summarizeContent.eq_def, h]
    have hne : ¬((jsTrim raw != "") = true ∧
        (if (jsTrim raw != "") = true then jsWordCount (jsTrim raw) else 0) < 50 ∧
        0 < 4) := by
      intro hc
      rw [hE] at hc
      simp at hc
    exact (dif_neg hne).trans (by rw [hE])
  · intro h
    have hf := (summarizeContent_spec oracle 4 0 rfl).2.2.1 0 (Nat.zero_le 0) (by omega)
    rcases hor : oracle 0 (promptFor 0) with e | op
    · rw [hor] at hf
      simp [isShort] at hf
    · rcases op with _ | raw
      · rw [hor] at hf
        simp [isShort] at hf
      · rw [hor] at hf
        simp only [isShort, Bool.and_eq_true, bne_iff_ne, ne_eq, decide_eq_true_eq] at hf
        exact ⟨raw, rfl, hf.1, hf.2⟩

/-- An oracle whose response carries no usable message content. -/
def orEmpty : Nat → PromptKind → Except Unit (Option String) :=
  fun _ _ => .ok none

/-- Witness for C10: the no-content oracle is answered with none after a
single call. -/
theorem claim_C10_witness : summarizeContent orEmpty 0 = (none, 1) :=
  (claim_C10_no_retry_on_unusable orEmpty).1 rfl

/-- C3: a candidate whose link already has a persisted blogs row is
rejected by processNews before any paid external call: null result,
unchanged DB, zero extraction calls and zero summarization calls. -/
theorem claim_C3_dedup_before_paid_calls (env : Env) (st : DbState) (it : NewsItem)
    (h : isNewsProcessed st it.link = true) :
    processNews env st it = ⟨none, st, ⟨0, 0⟩⟩ := by
  simp [processNews, h]

/-- Concrete DB state with one persisted post whose source link is L. -/
def dbW : DbState :=
  ⟨[⟨"post", "t", "d", JValue.undefined, "s", "L", 1, 1, "p"⟩], [], 2⟩

/-- Environment for the C3 witness; its external services all fail, so any
call to them would be visible in the counts. -/
def envW : Env :=
  { today := (1, 1, 2026)
    parseDate := fun _ => none
    nowIso := "now"
    initialDb := dbW
    feeds := .ok []
    parseURL := fun _ => .error ()
    diffbot := fun _ => .error ()
    summarize := fun _ _ _ => .error ()
    blogInsertOk := fun _ => false
    catInsertOk := fun _ => false }

/-- A candidate whose link L is already persisted in dbW. -/
def itemW : NewsItem := ⟨"t2", "L", "src", JValue.undefined, some 1, "p"⟩

/-- Witness for C3 at a concrete persisted link. -/
theorem claim_C3_witness : processNews envW dbW itemW = ⟨none, dbW, ⟨0, 0⟩⟩ :=
  claim_C3_dedup_before_paid_calls envW dbW itemW (by decide)

/-- C9: when the post insert succeeds and the category-link insert throws,
the inserted blogs row stays persisted (no rollback), no category row is
written, processNews returns null, and the walk does not increment the
processed count for this candidate. -/
theorem claim_C9_non_atomic_persistence (env : Env) (st : DbState) (it : NewsItem)
    (t s : String)
    (h1 : isNewsProcessed st it.link = false)
    (h2 : isNewsFromToday env it.pubDate = true)
    (h3 : env.diffbot it.link = .ok (some t)) (ht : t ≠ "")
    (h4 : (summarizeContent (env.summarize t) 0).1 = some s)
    (hs : s ≠ "") (hw : 50 ≤ jsWordCount s)
    (h5 : env.blogInsertOk it.link = true)
    (h6 : st.nextId ≠ 0) (h7 : catTruthy it.categoryId = true)
    (h8 : env.catInsertOk it.link = false) :
    processNews env st it =
      ⟨none,
       ⟨st.blogs ++ [⟨"post", it.title, s, it.image, it.source, it.link, 1, 1, it.pubDate⟩],
        st.blogCats, st.nextId + 1⟩,
       ⟨1, (summarizeContent (env.summarize t) 0).2⟩⟩ ∧
    (∀ cap rest pc, (runLoop env cap (it :: rest) st pc).pc =
       if pc < cap then (runLoop env cap rest (processNews env st it).db pc).pc else pc) := by
  have hlt : ¬ jsWordCount s < 50 := by omega
  have hmain : processNews env st it =
      ⟨none,
       ⟨st.blogs ++ [⟨"post", it.title, s, it.image, it.source, it.link, 1, 1, it.pubDate⟩],
        st.blogCats, st.nextId + 1⟩,
       ⟨1, (summarizeContent (env.summarize t) 0).2⟩⟩ := by
    simp [processNews, h1, h2, h3, h4, h5, h6, h7, h8, ht, hs, hlt]
  refine ⟨hmain, ?_⟩
  intro cap rest pc
  by_cases hpc : pc < cap
  · simp only [runLoop, if_pos hpc, hmain]
  · simp only [runLoop, if_neg hpc]

/-- An oracle answering a 50-word text at once. -/
def orFifty : Nat → PromptKind → Except Unit (Option String) :=
  fun _ _ => .ok (some (mkWords 50))

set_option maxRecDepth 8000 in
/-- Against the 50-word oracle the summarizer stops after one call. -/
theorem orFifty_eval : summarizeContent orFifty 0 = (some (mkWords 50), 1) := by
  rw [summarizeContent.eq_def]
  refine (dif_neg ?_).trans ?_
  · intro hc
    have := hc.2.1
    rw [if_pos hc.1] at this
    have hwc : jsWordCount (jsTrim (mkWords 50)) = 50 := by decide
    omega
  · rw [show jsTrim (mkWords 50) = mkWords 50 from by decide]

/-- DB state for the C9 witness: empty tables, next id 7. -/
def dbC9 : DbState := ⟨[], [], 7⟩

/-- Environment for the C9 witness: extraction succeeds for link L, the
summarizer answers 50 words at once, the post insert succeeds and the
category insert throws. -/
def envC9 : Env :=
  { today := (1, 1, 2026)
    parseDate := fun d => if d == "d" then some (1, 1, 2026) else none
    nowIso := "now"
    initialDb := dbC9
    feeds := .ok []
    parseURL := fun _ => .error ()
    diffbot := fun l => if l == "L" then .ok (some "body") else .error ()
    summarize := fun _ => orFifty
    blogInsertOk := fun _ => true
    catInsertOk := fun _ => false }

/-- The candidate of the C9 witness: fresh, unprocessed, with a category. -/
def itC9 : NewsItem := ⟨"t", "L", "src", JValue.undefined, some 2, "d"⟩

set_option maxRecDepth 8000 in
/-- Witness for C9: the failed category insert leaves the post row behind
and yields the null result. -/
theorem claim_C9_witness : processNews envC9 dbC9 itC9 =
    ⟨none,
     ⟨dbC9.blogs ++ [⟨"post", itC9.title, mkWords 50, itC9.image, itC9.source, itC9.link,
        1, 1, itC9.pubDate⟩],
      dbC9.blogCats, dbC9.nextId + 1⟩,
     ⟨1, (summarizeContent (envC9.summarize "body") 0).2⟩⟩ :=
  (claim_C9_non_atomic_persistence envC9 dbC9 itC9 "body" (mkWords 50)
    (by decide) (by decide) rfl (by decide)
    (by show (summarizeContent orFifty 0).1 = some (mkWords 50); rw [orFifty_eval])
    (by decide) (by decide) rfl (by decide) (by decide) rfl).1

/-- The attempted candidates of the loop form a prefix of the walked list,
the processed count counts exactly the successful attempts and never
exceeds the cap, a count strictly under the cap means every candidate was
attempted, a walk that reaches the cap ends right at a success, and a walk
entered at the cap attempts nothing. -/
theorem runLoop_spec (env : Env) (cap : Nat) (L : List NewsItem) :
    ∀ (st : DbState) (pc : Nat), pc ≤ cap →
    (∃ t, (runLoop env cap L st pc).attempts.map Prod.fst ++ t = L.map NewsItem.link) ∧
    (runLoop env cap L st pc).pc =
      pc + ((runLoop env cap L st pc).attempts.filter (fun a => a.2)).length ∧
    (runLoop env cap L st pc).pc ≤ cap ∧
    ((runLoop env cap L st pc).pc < cap →
      (runLoop env cap L st pc).attempts.length = L.length) ∧
    ((runLoop env cap L st pc).pc = cap → pc < cap →
      ∃ l pre, (runLoop env cap L st pc).attempts = pre ++ [(l, true)]) ∧
    (pc = cap → runLoop env cap L st pc = ⟨pc, st, 0, []⟩) := by
  induction L with
  | nil =>
    intro st pc hpc
    refine ⟨⟨[], rfl⟩, by simp [runLoop], by simpa [runLoop], ?_, ?_, ?_⟩
    · intro h
      simp [runLoop]
    · intro h1 h2
      simp only [runLoop] at h1
      omega
    · intro h
      simp [runLoop]
  | cons it rest ih =>
    intro st pc hpc
    by_cases hlt : pc < cap
    · rcases hres : (processNews env st it).result with _ | id
      · have heq : runLoop env cap (it :: rest) st pc =
            ⟨(runLoop env cap rest (processNews env st it).db pc).pc,
             (runLoop env cap rest (processNews env st it).db pc).db,
             (runLoop env cap rest (processNews env st it).db pc).delays,
             (it.link, false) :: (runLoop env cap rest (processNews env st it).db pc).attempts⟩ := by
          simp only [runLoop, if_pos hlt, hres]
        obtain ⟨⟨t0, ha⟩, hb, hc, hd, he, _⟩ :=
          ih (processNews env st it).db pc hpc
        rw [heq]
        refine ⟨⟨t0, ?_⟩, ?_, ?_, ?_, ?_, ?_⟩
        · simpa using ha
        · simpa using hb
        · simpa using hc
        · intro h
          simp only at h
          simp [hd h]
        · intro h1 h2
          obtain ⟨l, pre, hpre⟩ := he (by simpa using h1) h2
          exact ⟨l, (it.link, false) :: pre, by simp [hpre]⟩
        · intro h
          omega
      · have heq : runLoop env cap (it :: rest) st pc =
            ⟨(runLoop env cap rest (processNews env st it).db (pc + 1)).pc,
             (runLoop env cap rest (processNews env st it).db (pc + 1)).db,
             (runLoop env cap rest (processNews env st it).db (pc + 1)).delays +
               (if pc + 1 < cap then 1 else 0),
             (it.link, true) :: (runLoop env cap rest (processNews env st it).db (pc + 1)).attempts⟩ := by
          simp only [runLoop, if_pos hlt, hres]
        obtain ⟨⟨t0, ha⟩, hb, hc, hd, he, hf⟩ :=
          ih (processNews env st it).db (pc + 1) (by omega)
        rw [heq]
        refine ⟨⟨t0, ?_⟩, ?_, ?_, ?_, ?_, ?_⟩
        · simpa using ha
        · simp only [List.filter, List.length_cons]
          omega
        · simpa using hc
        · intro h
          simp only at h
          simp [hd h]
        · intro h1 h2
          by_cases hcap : pc + 1 < cap
          · obtain ⟨l, pre, hpre⟩ := he (by simpa using h1) hcap
            exact ⟨l, (it.link, true) :: pre, by simp [hpre]⟩
          · have hpc1 : pc + 1 = cap := by omega
            have := hf hpc1
            refine ⟨it.link, [], ?_⟩
            simp [this]
        · intro h
          omega
    · have hpceq : pc = cap := by omega
      have heq : runLoop env cap (it :: rest) st pc = ⟨pc, st, 0, []⟩ := by
        simp only [runLoop, if_neg hlt]
      rw [heq]
      refine ⟨⟨(it :: rest).map NewsItem.link, rfl⟩, by simp, hpc, ?_, ?_, fun _ => rfl⟩
      · intro h
        simp only at h
        omega
      · intro h1 h2
        omega

/-- Delay accounting for the loop: starting at count pc, the number of
12-second delays awaited is the number of successes recorded strictly
below the cap, i.e. min finalCount (cap - 1) - min pc (cap - 1): each
success delays unless it is the one that reaches the cap. -/
theorem runLoop_delays (env : Env) (cap : Nat) (L : List NewsItem) :
    ∀ (st : DbState) (pc : Nat), pc ≤ cap →
    (runLoop env cap L st pc).delays =
      min (runLoop env cap L st pc).pc (cap - 1) - min pc (cap - 1) := by
  induction L with
  | nil =>
    intro st pc hpc
    simp [runLoop]
  | cons it rest ih =>
    intro st pc hpc
    by_cases hlt : pc < cap
    · rcases hres : (processNews env st it).result with _ | id
      · simp only [runLoop, if_pos hlt, hres]
        exact ih (processNews env st it).db pc hpc
      · simp only [runLoop, if_pos hlt, hres]
        have hrec := ih (processNews env st it).db (pc + 1) (by omega)
        have hb := (runLoop_spec env cap rest (processNews env st it).db (pc + 1) (by omega)).2.1
        have hc := (runLoop_spec env cap rest (processNews env st it).db (pc + 1) (by omega)).2.2.1
        rw [hrec]
        by_cases h : pc + 1 < cap
        · rw [if_pos h]
          omega
        · rw [if_neg h]
          omega
    · simp only [runLoop, if_neg hlt]
      omega

/-- C4 amended: delays separate consecutive successes only when the run
reaches its cap: with n successful insertions, the run performs n - 1
delays when n equals the itemsToProcess cap (none after the cap-reaching
success), but n delays when the walk ends with n below the cap — then the
final successful insertion is also followed by a delay. No delay follows a
failed attempt. -/
theorem claim_C4_amended_delay_count (env : Env) :
    (fetchAndProcessNews env).delays =
      (if processedOf (fetchAndProcessNews env) = (fetchAndProcessNews env).cap
       then processedOf (fetchAndProcessNews env) - 1
       else processedOf (fetchAndProcessNews env)) := by
  rcases hf : env.feeds with e | fs
  · simp [fetchAndProcessNews, hf, processedOf]
  · have hd := runLoop_delays env (min 3 (aggregate env fs).length) (aggregate env fs)
      env.initialDb 0 (by omega)
    have hb := (runLoop_spec env (min 3 (aggregate env fs).length) (aggregate env fs)
      env.initialDb 0 (by omega)).2.2.1
    simp only [fetchAndProcessNews, hf, processedOf]
    rw [hd]
    by_cases h : (runLoop env (min 3 (aggregate env fs).length) (aggregate env fs)
        env.initialDb 0).pc = min 3 (aggregate env fs).length
    · rw [if_pos h]
      omega
    · rw [if_neg h]
      omega

/-- C5: candidates are attempted in aggregation order (the attempt list is
a prefix of the aggregated list), the reported count is exactly the number
of successful attempts and never exceeds the cap, a run that ends below
the cap attempted every candidate (failures do not consume slots), and a
run that reaches the cap stops immediately after the cap-th success, so
later candidates are never attempted. -/
theorem claim_C5_walk_order_and_stop (env : Env) :
    (∃ t, (fetchAndProcessNews env).attempts.map Prod.fst ++ t =
       (aggregateOf env).map NewsItem.link) ∧
    processedOf (fetchAndProcessNews env) =
      ((fetchAndProcessNews env).attempts.filter (fun a => a.2)).length ∧
    processedOf (fetchAndProcessNews env) ≤ (fetchAndProcessNews env).cap ∧
    (processedOf (fetchAndProcessNews env) < (fetchAndProcessNews env).cap →
      (fetchAndProcessNews env).attempts.length = (aggregateOf env).length) ∧
    (processedOf (fetchAndProcessNews env) = (fetchAndProcessNews env).cap →
      0 < (fetchAndProcessNews env).cap →
      ∃ l pre, (fetchAndProcessNews env).attempts = pre ++ [(l, true)]) := by
  rcases hf : env.feeds with e | fs
  · simp [fetchAndProcessNews, aggregateOf, hf, processedOf]
  · obtain ⟨ha, hb, hc, hd, he, _⟩ := runLoop_spec env (min 3 (aggregate env fs).length)
      (aggregate env fs) env.initialDb 0 (by omega)
    simp only [fetchAndProcessNews, hf, aggregateOf, processedOf]
    exact ⟨ha, by simpa using hb, hc, hd, fun h1 h2 => he h1 (by omega)⟩

/-- DB state for the C2 counterexample: one persisted post with link L. -/
def dbC2 : DbState := ⟨[⟨"post", "old", "x", .undefined, "s", "L", 1, 1, "p"⟩], [], 3⟩

/-- Environment for the C2 counterexample: one feed yielding one item
whose link L is already persisted, so the filter would reject it. -/
def envC2 : Env :=
  { today := (1, 1, 2026)
    parseDate := fun _ => none
    nowIso := "now"
    initialDb := dbC2
    feeds := .ok [⟨"u", some 1⟩]
    parseURL := fun _ => .ok ⟨"Src", [⟨"T", "L", "d", .obj []⟩]⟩
    diffbot := fun _ => .error ()
    summarize := fun _ _ _ => .error ()
    blogInsertOk := fun _ => false
    catInsertOk := fun _ => false }

/-- Witness for C5 at the concrete run with one failing candidate: the
count (0) is below the cap (1), and indeed every candidate was attempted. -/
theorem claim_C5_witness :
    (fetchAndProcessNews envC2).attempts.length = (aggregateOf envC2).length :=
  (claim_C5_walk_order_and_stop envC2).2.2.2.1 (by decide)

/-- Counterexample to C2: in this run one candidate is aggregated and zero
candidates survive the dedup/freshness filter, yet the code computes
itemsToProcess = Math.min(3, newsLinks.length) = 1, not min(3, 0) = 0. -/
theorem claim_C2_counterexample :
    (fetchAndProcessNews envC2).cap = 1 ∧ (survivorsSpec envC2).length = 0 ∧
    (fetchAndProcessNews envC2).cap ≠ min 3 (survivorsSpec envC2).length := by
  refine ⟨by decide, by decide, by decide⟩

/-- C2 amended: itemsToProcess equals min(3, number of aggregated
candidates) — it is computed from the raw aggregated list, independent of
how many candidates survive the dedup/freshness filter. -/
theorem claim_C2_amended_cap_from_aggregated (env : Env) :
    (fetchAndProcessNews env).cap = min 3 (aggregateOf env).length := by
  rcases hf : env.feeds with e | fs
  · simp [fetchAndProcessNews, aggregateOf, hf]
  · simp [fetchAndProcessNews, aggregateOf, hf]

/-- C7: the run settles with an error exactly when loading the feed list
fails (per-candidate errors never abort the run), the DB pool is closed on
every exit path, and each modeled per-candidate fault (extraction call
throwing, every summarization call throwing, the post insert throwing) is
absorbed into a null result for that candidate. -/
theorem claim_C7_error_containment (env : Env) :
    ((fetchAndProcessNews env).result = .error () ↔ env.feeds = .error ()) ∧
    (fetchAndProcessNews env).dbClosed = true ∧
    (∀ st it, env.diffbot it.link = .error () → (processNews env st it).result = none) ∧
    ((∀ t n pk, env.summarize t n pk = .error ()) →
      ∀ st it, (processNews env st it).result = none) ∧
    (∀ st it, env.blogInsertOk it.link = false → (processNews env st it).result = none) := by
  refine ⟨?_, ?_, ?_, ?_, ?_⟩
  · rcases hf : env.feeds with e | fs
    · cases e
      simp [fetchAndProcessNews, hf]
    · simp [fetchAndProcessNews, hf]
  · rcases hf : env.feeds with e | fs
    · simp [fetchAndProcessNews, hf]
    · simp [fetchAndProcessNews, hf]
  · intro st it h
    simp only [processNews, h]
    repeat' split
    all_goals simp_all
  · intro hsum st it
    have hnone : ∀ t, summarizeContent (env.summarize t) 0 = (none, 1) := by
      intro t
      rw [summarizeContent.eq_def, hsum]
    simp only [processNews, hnone]
    repeat' split
    all_goals simp_all
  · intro st it h
    simp only [processNews, h]
    repeat' split
    all_goals simp_all

/-- Environment whose feed-list query itself fails. -/
def envErr : Env := { envC2 with feeds := .error () }

/-- Witness for C7: a failing feed-list query propagates as the run's
error, and a failing extraction call is absorbed into a null candidate
result. -/
theorem claim_C7_witness :
    (fetchAndProcessNews envErr).result = .error () ∧
    (processNews envErr dbW itemW).result = none :=
  ⟨(claim_C7_error_containment envErr).1.mpr rfl,
   (claim_C7_error_containment envErr).2.2.1 dbW itemW rfl⟩

/-- DB state for the C4 counterexample: link L2 is already persisted and
the next blogs id is 5. -/
def dbC4 : DbState := ⟨[⟨"post", "old", "x", .undefined, "s", "L2", 1, 1, "p"⟩], [], 5⟩

/-- Environment for the C4 counterexample: two candidates; the first
succeeds end to end, the second is rejected by the dedup filter, so the
run ends with one success while the cap is two. -/
def envC4 : Env :=
  { today := (1, 1, 2026)
    parseDate := fun d => if d == "d1" then some (1, 1, 2026) else none
    nowIso := "now"
    initialDb := dbC4
    feeds := .ok [⟨"u", some 1⟩]
    parseURL := fun _ => .ok ⟨"Src", [⟨"T1", "L1", "d1", .obj []⟩, ⟨"T2", "L2", "d2", .obj []⟩]⟩
    diffbot := fun l => if l == "L1" then .ok (some "body") else .error ()
    summarize := fun _ => orFifty
    blogInsertOk := fun _ => true
    catInsertOk := fun _ => true }

/-- The first aggregated candidate of the C4 counterexample run. -/
def n1C4 : NewsItem := ⟨"T1", "L1", "Src", .str "", some 1, "d1"⟩

/-- The second aggregated candidate of the C4 counterexample run. -/
def n2C4 : NewsItem := ⟨"T2", "L2", "Src", .str "", some 1, "d2"⟩

/-- The DB state after the first candidate is fully persisted. -/
def db2C4 : DbState :=
  ⟨dbC4.blogs ++ [⟨"post", "T1", mkWords 50, .str "", "Src", "L1", 1, 1, "d1"⟩],
   [⟨5, 1, "category"⟩], 6⟩

/-- The fully successful path of processNews: both filters pass, the
extraction yields nonempty text, the summary is acceptable, both inserts
succeed; the candidate is persisted with its category link and the new
blogs id is returned. -/
theorem processNews_success (env : Env) (st : DbState) (it : NewsItem)
    (t s : String) (k : Nat)
    (h1 : isNewsProcessed st it.link = false)
    (h2 : isNewsFromToday env it.pubDate = true)
    (h3 : env.diffbot it.link = .ok (some t)) (ht : t ≠ "")
    (h4 : summarizeContent (env.summarize t) 0 = (some s, k))
    (hs : s ≠ "") (hw : 50 ≤ jsWordCount s)
    (h5 : env.blogInsertOk it.link = true)
    (h6 : st.nextId ≠ 0) (h7 : catTruthy it.categoryId = true)
    (h8 : env.catInsertOk it.link = true) :
    processNews env st it =
      ⟨some st.nextId,
       ⟨st.blogs ++ [⟨"post", it.title, s, it.image, it.source, it.link, 1, 1, it.pubDate⟩],
        st.blogCats ++ [⟨st.nextId, it.categoryId.getD 0, "category"⟩], st.nextId + 1⟩,
       ⟨1, k⟩⟩ := by
  have hlt : ¬ jsWordCount s < 50 := by omega
  simp [processNews, h1, h2, h3, h4, h5, h6, h7, h8, ht, hs, hlt]

set_option maxRecDepth 8000 in
/-- Evaluation of the first candidate: a full success with id 5. -/
theorem processNews_C4_first : processNews envC4 dbC4 n1C4 = ⟨some 5, db2C4, ⟨1, 1⟩⟩ :=
  processNews_success envC4 dbC4 n1C4 "body" (mkWords 50) 1
    (by decide) (by decide) rfl (by decide) orFifty_eval
    (by decide) (by decide) rfl (by decide) (by decide) rfl

set_option maxRecDepth 8000 in
/-- Evaluation of the second candidate: rejected by the dedup filter. -/
theorem processNews_C4_second : processNews envC4 db2C4 n2C4 = ⟨none, db2C4, ⟨0, 0⟩⟩ := by
  have h1 : isNewsProcessed db2C4 n2C4.link = true := by decide
  simp [processNews, h1]

set_option maxRecDepth 8000 in
/-- Counterexample to C4: this run records exactly one successful
insertion (n = 1), yet one 12-second delay was awaited — not n - 1 = 0;
the delay followed the final successful insertion because the cap (2) had
not been reached. -/
theorem claim_C4_counterexample :
    processedOf (fetchAndProcessNews envC4) = 1 ∧ (fetchAndProcessNews envC4).delays = 1 := by
  have hagg : aggregate envC4 [⟨"u", some 1⟩] = [n1C4, n2C4] := rfl
  have hloop : runLoop envC4 2 [n1C4, n2C4] dbC4 0 =
      ⟨1, db2C4, 1, [("L1", true), ("L2", false)]⟩ := by
    simp only [runLoop, processNews_C4_first, processNews_C4_second]
    norm_num [n1C4, n2C4]
  have hfe : envC4.feeds = .ok [⟨"u", some 1⟩] := rfl
  have hini : envC4.initialDb = dbC4 := rfl
  have hmin : min 3 ([n1C4, n2C4].length) = 2 := by simp
  have hrun : fetchAndProcessNews envC4 =
      ⟨.ok 1, db2C4, true, 2, 1, [("L1", true), ("L2", false)]⟩ := by
    simp only [fetchAndProcessNews, hfe, hagg, hini, hmin, hloop]
  rw [hrun]
  exact ⟨rfl, rfl⟩

/-- A media-content entry typed image/svg+xml with the given URL. -/
def svgEntry (u : String) : JValue :=
  .obj [("$", .obj [("type", .str "image/svg+xml"), ("url", .str u)])]

/-- A media-content entry typed image/jpeg with the given URL. -/
def jpegEntry (u : String) : JValue :=
  .obj [("$", .obj [("type", .str "image/jpeg"), ("url", .str u)])]

/-- A feed item whose media-content collection lists the svg entry first
and the jpeg entry second. -/
def itemC6 (u1 u2 : String) : JValue :=
  .obj [("media:content", .arr [svgEntry u1, jpegEntry u2])]

/-- Counterexample to C6: with the svg entry listed first, the extractor
returns the svg entry's URL — which is the first-listed entry's URL, not
the jpeg entry's — because the type image/svg+xml also has the MIME
prefix image/ and the find takes the first match. -/
theorem claim_C6_counterexample :
    extractMediaUrl (itemC6 "https://e.com/a.svg" "https://e.com/a.jpg") =
      .ok (.str "https://e.com/a.svg") ∧
    "https://e.com/a.svg" ≠ "https://e.com/a.jpg" :=
  ⟨rfl, by decide⟩

/-- C6 amended: for a media-content collection with an image/svg+xml entry
listed first and an image/jpeg entry second, the extractor returns the URL
of the first entry whose medium is image or whose type starts with image/
— here the svg entry, since image/svg+xml matches that prefix. -/
theorem claim_C6_amended (u1 u2 : String) :
    extractMediaUrl (itemC6 u1 u2) = .ok (.str u1) := by
  have hnull : jNullish (itemC6 u1 u2) = false := rfl
  have h1 : method1 (itemC6 u1 u2) (.str "") = .ok (.str u1) := rfl
  by_cases h : u1 = ""
  · subst h
    rfl
  · have hcur : truthy (.str u1) = true := by simp [truthy, h]
    have h2 : method2 (itemC6 u1 u2) (.str u1) = .ok (.str u1) := by
      simp [method2, hcur]
    have h3 : method3 (itemC6 u1 u2) (.str u1) = .ok (.str u1) := by
      simp [method3, hcur]
    have h4 : method4 (itemC6 u1 u2) (.str u1) = .ok (.str u1) := by
      simp [method4, hcur]
    simp [extractMediaUrl, hnull, h1, h2, h3, h4]

/-- The raw item of the C8 counterexample: its media-content collection
holds one entry whose type attribute is the number 1. -/
def itemC8 : JValue :=
  .obj [("media:content", .arr [.obj [("$", .obj [("type", .num 1)])]])]

/-- Counterexample to C8: on this shape (a truthy non-string type
attribute) the find callback calls startsWith on a number, so
extractMediaUrl throws a TypeError instead of returning a string. -/
theorem claim_C8_counterexample : extractMediaUrl itemC8 = .error () := rfl

/-- A value usable as an attribute read result without surprises: a string
or undefined (absent). -/
def attrStr : JValue → Bool
  | .str _ => true
  | .undefined => true
  | _ => false

/-- Well-shaped feed values, as rss-parser produces them: every type, url
or @_url field holds a string where present, and arrays contain no null or
undefined entries. -/
def wfVal : JValue → Bool
  | .obj [] => true
  | .obj ((k, v) :: fs) =>
    (if k = "type" ∨ k = "url" ∨ k = "@_url" then attrStr v else true) &&
      wfVal v && wfVal (.obj fs)
  | .arr [] => true
  | .arr (v :: vs) => !jNullish v && wfVal v && wfVal (.arr vs)
  | _ => true

/-- Looking a key up in a well-shaped object yields a well-shaped value. -/
theorem wfVal_jlookup (k : String) (fs : List (String × JValue))
    (h : wfVal (.obj fs) = true) : wfVal (jlookup k fs) = true := by
  induction fs with
  | nil => simp [jlookup, wfVal]
  | cons p rest ih =>
    obtain ⟨k2, v⟩ := p
    simp only [wfVal, Bool.and_eq_true] at h
    simp only [jlookup]
    by_cases hk : k2 = k
    · rw [if_pos hk]
      exact h.1.2
    · rw [if_neg hk]
      exact ih h.2

/-- Looking a type, url or @_url key up in a well-shaped object yields a
string or undefined. -/
theorem attrStr_jlookup (k : String) (fs : List (String × JValue))
    (h : wfVal (.obj fs) = true) (hk : k = "type" ∨ k = "url" ∨ k = "@_url") :
    attrStr (jlookup k fs) = true := by
  induction fs with
  | nil => simp [jlookup, attrStr]
  | cons p rest ih =>
    obtain ⟨k2, v⟩ := p
    simp only [wfVal, Bool.and_eq_true] at h
    simp only [jlookup]
    by_cases hke : k2 = k
    · rw [if_pos hke]
      have := h.1.1
      rwa [if_pos (by rw [hke]; exact hk)] at this
    · rw [if_neg hke]
      exact ih h.2

/-- Property access on a well-shaped value yields a well-shaped value. -/
theorem wfVal_jget (v : JValue) (k : String) (h : wfVal v = true) :
    wfVal (jget v k) = true := by
  cases v with
  | obj fs => exact wfVal_jlookup k fs h
  | _ => simp [jget, wfVal]

/-- Reading a type, url or @_url attribute of a well-shaped value yields a
string or undefined. -/
theorem attrStr_jget (v : JValue) (k : String) (h : wfVal v = true)
    (hk : k = "type" ∨ k = "url" ∨ k = "@_url") :
    attrStr (jget v k) = true := by
  cases v with
  | obj fs => exact attrStr_jlookup k fs h hk
  | _ => simp [jget, attrStr]

/-- Members of a well-shaped array are well-shaped and not nullish. -/
theorem wfVal_arr_mem (xs : List JValue) (h : wfVal (.arr xs) = true) :
    ∀ x ∈ xs, wfVal x = true ∧ jNullish x = false := by
  induction xs with
  | nil => simp
  | cons v vs ih =>
    simp only [wfVal, Bool.and_eq_true, Bool.not_eq_true'] at h
    intro x hx
    rcases List.mem_cons.mp hx with hx | hx
    · subst hx
      exact ⟨h.1.2, h.1.1⟩
    · exact ih h.2 x hx

/-- A truthy attribute value that is a string or undefined is a string. -/
theorem attrStr_truthy_str (v : JValue) (ha : attrStr v = true) (ht : truthy v = true) :
    ∃ s, v = .str s := by
  cases v <;> simp_all [attrStr, truthy]

/-- asArr succeeds exactly on arrays. -/
theorem asArr_eq (v : JValue) (xs : List JValue) (h : asArr v = some xs) : v = .arr xs := by
  cases v <;> simp_all [asArr]

/-- jsOr of well-shaped values is well-shaped. -/
theorem wfVal_jsOr (a b : JValue) (ha : wfVal a = true) (hb : wfVal b = true) :
    wfVal (jsOr a b) = true := by
  by_cases h : truthy a = true <;> simp [jsOr, h, ha, hb]

/-- jsOr of attribute-shaped values is attribute-shaped. -/
theorem attrStr_jsOr (a b : JValue) (ha : attrStr a = true) (hb : attrStr b = true) :
    attrStr (jsOr a b) = true := by
  by_cases h : truthy a = true <;> simp [jsOr, h, ha, hb]

/-- On a well-shaped, non-nullish element the media find callback does not
throw. -/
theorem isImageMediaPred_ok (m : JValue) (hw : wfVal m = true) (hn : jNullish m = false) :
    ∃ b, isImageMediaPred m = .ok b := by
  by_cases hd : truthy (jget m "$") = true
  · by_cases hmed : jstreq (jget (jget m "$") "medium") "image" = true
    · exact ⟨true, by simp [isImageMediaPred, hn, hd, hmed]⟩
    · by_cases ht : truthy (jget (jget m "$") "type") = true
      · obtain ⟨s, hsv⟩ := attrStr_truthy_str _
          (attrStr_jget _ _ (wfVal_jget m "$" hw) (Or.inl rfl)) ht
        have hts : truthy (JValue.str s) = true := hsv ▸ ht
        exact ⟨jsStartsWith s "image/",
          by simp [isImageMediaPred, hn, hd, hmed, ht, hsv, hts]⟩
      · exact ⟨false, by simp [isImageMediaPred, hn, hd, hmed, ht]⟩
  · exact ⟨false, by simp [isImageMediaPred, hn, hd]⟩

/-- On a well-shaped, non-nullish element the enclosure find callback does
not throw. -/
theorem isImageEnclosurePred_ok (m : JValue) (hw : wfVal m = true) (hn : jNullish m = false) :
    ∃ b, isImageEnclosurePred m = .ok b := by
  by_cases hd : truthy (jget m "$") = true
  · by_cases ht : truthy (jget (jget m "$") "type") = true
    · obtain ⟨s, hsv⟩ := attrStr_truthy_str _
        (attrStr_jget _ _ (wfVal_jget m "$" hw) (Or.inl rfl)) ht
      have hts : truthy (JValue.str s) = true := hsv ▸ ht
      exact ⟨jsStartsWith s "image/",
        by simp [isImageEnclosurePred, hn, hd, ht, hsv, hts]⟩
    · exact ⟨false, by simp [isImageEnclosurePred, hn, hd, ht]⟩
  · exact ⟨false, by simp [isImageEnclosurePred, hn, hd]⟩

/-- If the callback throws on no element, find does not throw, and any
found element is a member of the array. -/
theorem findE_ok (p : JValue → Except Unit Bool) (xs : List JValue)
    (hp : ∀ x ∈ xs, ∃ b, p x = .ok b) :
    ∃ o, findE p xs = .ok o ∧ ∀ m, o = some m → m ∈ xs := by
  induction xs with
  | nil => exact ⟨none, rfl, by simp⟩
  | cons x rest ih =>
    obtain ⟨b, hb⟩ := hp x (by simp)
    cases b with
    | false =>
      obtain ⟨o, ho, hmem⟩ := ih (fun y hy => hp y (by simp [hy]))
      refine ⟨o, by simp [findE, hb, ho], fun m hm => by simp [hmem m hm]⟩
    | true =>
      refine ⟨some x, by simp [findE, hb], fun m hm => ?_⟩
      simp only [Option.some.injEq] at hm
      simp [hm]

/-- The head of a well-shaped array is well-shaped (undefined if empty). -/
theorem wfVal_jhd (xs : List JValue) (h : wfVal (.arr xs) = true) :
    wfVal (jhd xs) = true := by
  cases xs with
  | nil => simp [jhd, wfVal]
  | cons a rest =>
    simpa [jhd] using (wfVal_arr_mem _ h a (List.mem_cons_self a rest)).1


/-- On a well-shaped item, method 1 does not throw and maps an
attribute-shaped current value to an attribute-shaped one. -/
theorem method1_ok (item cur : JValue) (hw : wfVal item = true) (hc : attrStr cur = true) :
    ∃ v, method1 item cur = .ok v ∧ attrStr v = true := by
  by_cases hmc : truthy (jget item "media:content") = true
  case neg => exact ⟨cur, by simp [method1, hmc], hc⟩
  case pos =>
    have hwmc : wfVal (jget item "media:content") = true := wfVal_jget _ _ hw
    rcases harr : asArr (jget item "media:content") with _ | xs
    · by_cases hd : truthy (jget (jget item "media:content") "$") = true
      · refine ⟨jget (jget (jget item "media:content") "$") "url", ?_, ?_⟩
        · simp [method1, hmc, harr, hd]
        · exact attrStr_jget _ "url" (wfVal_jget _ "$" hwmc) (Or.inr (Or.inl rfl))
      · by_cases hto : typeofObj (jget item "media:content") = true
        · refine ⟨jsOr (jget (jget item "media:content") "url")
              (jsOr (jget (jget item "media:content") "@_url") (.str "")), ?_, ?_⟩
          · simp [method1, hmc, harr, hd, hto]
          · exact attrStr_jsOr _ _ (attrStr_jget _ "url" hwmc (Or.inr (Or.inl rfl)))
              (attrStr_jsOr _ _ (attrStr_jget _ "@_url" hwmc (Or.inr (Or.inr rfl))) rfl)
        · refine ⟨cur, ?_, hc⟩
          simp [method1, hmc, harr, hd, hto]
    · have hxs : wfVal (.arr xs) = true := by
        rw [← asArr_eq _ _ harr]
        exact hwmc
      have hpred : ∀ x ∈ xs, ∃ b, isImageMediaPred x = .ok b := fun x hx =>
        isImageMediaPred_ok x (wfVal_arr_mem xs hxs x hx).1 (wfVal_arr_mem xs hxs x hx).2
      obtain ⟨o, ho, hmem⟩ := findE_ok isImageMediaPred xs hpred
      have hu : truthy JValue.undefined = false := rfl
      have hhdurl : attrStr (jget (jget (jhd xs) "$") "url") = true :=
        attrStr_jget _ "url" (wfVal_jget _ "$" (wfVal_jhd xs hxs)) (Or.inr (Or.inl rfl))
      rcases o with _ | mfound
      · by_cases hh : (truthy (jhd xs) && truthy (jget (jhd xs) "$")) = true
        · refine ⟨jget (jget (jhd xs) "$") "url", ?_, hhdurl⟩
          simp [method1, hmc, harr, ho, hu, hh]
        · refine ⟨cur, ?_, hc⟩
          simp [method1, hmc, harr, ho, hu, hh]
      · have hwm := wfVal_arr_mem xs hxs mfound (hmem mfound rfl)
        by_cases hf : (truthy mfound && truthy (jget mfound "$")) = true
        · refine ⟨jget (jget mfound "$") "url", ?_, ?_⟩
          · simp [method1, hmc, harr, ho, hf]
          · exact attrStr_jget _ "url" (wfVal_jget _ "$" hwm.1) (Or.inr (Or.inl rfl))
        · by_cases hh : (truthy (jhd xs) && truthy (jget (jhd xs) "$")) = true
          · refine ⟨jget (jget (jhd xs) "$") "url", ?_, hhdurl⟩
            simp [method1, hmc, harr, ho, hf, hh]
          · refine ⟨cur, ?_, hc⟩
            simp [method1, hmc, harr, ho, hf, hh]

/-- On a well-shaped item, method 2 does not throw and maps an
attribute-shaped current value to an attribute-shaped one. -/
theorem method2_ok (item cur : JValue) (hw : wfVal item = true) (hc : attrStr cur = true) :
    ∃ v, method2 item cur = .ok v ∧ attrStr v = true := by
  by_cases hg : (!truthy cur && truthy (jget item "media") &&
      truthy (jget (jget item "media") "content")) = true
  case neg =>
    refine ⟨cur, ?_, hc⟩
    simp only [method2]
    rw [if_neg (by simpa using hg)]
  case pos =>
    have hwmc : wfVal (jget (jget item "media") "content") = true :=
      wfVal_jget _ _ (wfVal_jget _ _ hw)
    rcases harr : asArr (jget (jget item "media") "content") with _ | xs
    · by_cases hd : truthy (jget (jget (jget item "media") "content") "$") = true
      · refine ⟨jget (jget (jget (jget item "media") "content") "$") "url", ?_, ?_⟩
        · simp [method2, hg, harr, hd]
        · exact attrStr_jget _ "url" (wfVal_jget _ "$" hwmc) (Or.inr (Or.inl rfl))
      · refine ⟨cur, ?_, hc⟩
        simp [method2, hg, harr, hd]
    · have hxs : wfVal (.arr xs) = true := by
        rw [← asArr_eq _ _ harr]
        exact hwmc
      have hpred : ∀ x ∈ xs, ∃ b, isImageMediaPred x = .ok b := fun x hx =>
        isImageMediaPred_ok x (wfVal_arr_mem xs hxs x hx).1 (wfVal_arr_mem xs hxs x hx).2
      obtain ⟨o, ho, hmem⟩ := findE_ok isImageMediaPred xs hpred
      rcases o with _ | mfound
      · have hwor : wfVal (jsOr JValue.undefined (jhd xs)) = true :=
          wfVal_jsOr _ _ (by simp [wfVal]) (wfVal_jhd xs hxs)
        by_cases hm : (truthy (jsOr JValue.undefined (jhd xs)) &&
            truthy (jget (jsOr JValue.undefined (jhd xs)) "$")) = true
        · refine ⟨jget (jget (jsOr JValue.undefined (jhd xs)) "$") "url", ?_, ?_⟩
          · simp [method2, hg, harr, ho, hm]
          · exact attrStr_jget _ "url" (wfVal_jget _ "$" hwor) (Or.inr (Or.inl rfl))
        · refine ⟨.str "", ?_, rfl⟩
          simp [method2, hg, harr, ho, hm]
      · have hwm := wfVal_arr_mem xs hxs mfound (hmem mfound rfl)
        have hwor : wfVal (jsOr mfound (jhd xs)) = true :=
          wfVal_jsOr _ _ hwm.1 (wfVal_jhd xs hxs)
        by_cases hm : (truthy (jsOr mfound (jhd xs)) &&
            truthy (jget (jsOr mfound (jhd xs)) "$")) = true
        · refine ⟨jget (jget (jsOr mfound (jhd xs)) "$") "url", ?_, ?_⟩
          · simp [method2, hg, harr, ho, hm]
          · exact attrStr_jget _ "url" (wfVal_jget _ "$" hwor) (Or.inr (Or.inl rfl))
        · refine ⟨.str "", ?_, rfl⟩
          simp [method2, hg, harr, ho, hm]

/-- On a well-shaped item, method 3 never throws and maps an
attribute-shaped current value to an attribute-shaped one. -/
theorem method3_ok (item cur : JValue) (hw : wfVal item = true) (hc : attrStr cur = true) :
    ∃ v, method3 item cur = .ok v ∧ attrStr v = true := by
  have hwth : wfVal (jget item "media:thumbnail") = true := wfVal_jget _ _ hw
  by_cases hg : (!truthy cur && truthy (jget item "media:thumbnail")) = true
  case neg =>
    refine ⟨cur, ?_, hc⟩
    simp only [method3]
    rw [if_neg (by simpa using hg)]
  case pos =>
    by_cases hd : truthy (jget (jget item "media:thumbnail") "$") = true
    · refine ⟨jget (jget (jget item "media:thumbnail") "$") "url", ?_, ?_⟩
      · simp [method3, hg, hd]
      · exact attrStr_jget _ "url" (wfVal_jget _ "$" hwth) (Or.inr (Or.inl rfl))
    · by_cases hto : typeofObj (jget item "media:thumbnail") = true
      · refine ⟨jsOr (jget (jget item "media:thumbnail") "url")
            (jsOr (jget (jget item "media:thumbnail") "@_url") (.str "")), ?_, ?_⟩
        · simp [method3, hg, hd, hto]
        · exact attrStr_jsOr _ _ (attrStr_jget _ "url" hwth (Or.inr (Or.inl rfl)))
            (attrStr_jsOr _ _ (attrStr_jget _ "@_url" hwth (Or.inr (Or.inr rfl))) rfl)
      · refine ⟨cur, ?_, hc⟩
        simp [method3, hg, hd, hto]

/-- On a well-shaped enclosure value the flattened-attribute tail of
method 4 does not throw and preserves attribute-shapedness. -/
theorem method4Tail_ok (enc cur : JValue) (hw : wfVal enc = true) (hc : attrStr cur = true) :
    ∃ v, method4Tail enc cur = .ok v ∧ attrStr v = true := by
  by_cases hto : typeofObj enc = true
  case neg => exact ⟨cur, by simp [method4Tail, hto], hc⟩
  case pos =>
    by_cases ht : truthy (jget enc "type") = true
    · obtain ⟨s, hsv⟩ := attrStr_truthy_str _ (attrStr_jget _ "type" hw (Or.inl rfl)) ht
      have hts : truthy (JValue.str s) = true := hsv ▸ ht
      by_cases hst : jsStartsWith s "image/" = true
      · refine ⟨jsOr (jget enc "url") (.str ""), ?_, ?_⟩
        · simp [method4Tail, hto, ht, hsv, hts, hst]
        · exact attrStr_jsOr _ _ (attrStr_jget _ "url" hw (Or.inr (Or.inl rfl))) rfl
      · refine ⟨cur, ?_, hc⟩
        simp [method4Tail, hto, ht, hsv, hts, hst]
    · refine ⟨cur, ?_, hc⟩
      simp [method4Tail, hto, ht]

/-- On a well-shaped item, method 4 does not throw and maps an
attribute-shaped current value to an attribute-shaped one. -/
theorem method4_ok (item cur : JValue) (hw : wfVal item = true) (hc : attrStr cur = true) :
    ∃ v, method4 item cur = .ok v ∧ attrStr v = true := by
  have hwe : wfVal (jget item "enclosure") = true := wfVal_jget _ _ hw
  by_cases hg : (!truthy cur && truthy (jget item "enclosure")) = true
  case neg =>
    refine ⟨cur, ?_, hc⟩
    simp only [method4]
    rw [if_neg (by simpa using hg)]
  case pos =>
    rcases harr : asArr (jget item "enclosure") with _ | xs
    · by_cases hd : (truthy (jget (jget item "enclosure") "$") &&
          truthy (jget (jget (jget item "enclosure") "$") "type")) = true
      · have hd2 : truthy (jget (jget (jget item "enclosure") "$") "type") = true := by
          have h2 := hd
          simp only [Bool.and_eq_true] at h2
          exact h2.2
        obtain ⟨s, hsv⟩ := attrStr_truthy_str _
          (attrStr_jget _ "type" (wfVal_jget _ "$" hwe) (Or.inl rfl)) hd2
        have hd1 : truthy (jget (jget item "enclosure") "$") = true := by
          have h2 := hd
          simp only [Bool.and_eq_true] at h2
          exact h2.1
        have hts : truthy (JValue.str s) = true := hsv ▸ hd2
        by_cases hst : jsStartsWith s "image/" = true
        · refine ⟨jget (jget (jget item "enclosure") "$") "url", ?_, ?_⟩
          · simp [method4, hg, harr, hd, hd1, hts, hsv, hst]
          · exact attrStr_jget _ "url" (wfVal_jget _ "$" hwe) (Or.inr (Or.inl rfl))
        · obtain ⟨v, hv, ha⟩ := method4Tail_ok (jget item "enclosure") cur hwe hc
          refine ⟨v, ?_, ha⟩
          simp [method4, hg, harr, hd, hsv, hst, hv]
      · obtain ⟨v, hv, ha⟩ := method4Tail_ok (jget item "enclosure") cur hwe hc
        refine ⟨v, ?_, ha⟩
        simp [method4, hg, harr, hd, hv]
    · have hxs : wfVal (.arr xs) = true := by
        rw [← asArr_eq _ _ harr]
        exact hwe
      have hpred : ∀ x ∈ xs, ∃ b, isImageEnclosurePred x = .ok b := fun x hx =>
        isImageEnclosurePred_ok x (wfVal_arr_mem xs hxs x hx).1 (wfVal_arr_mem xs hxs x hx).2
      obtain ⟨o, ho, hmem⟩ := findE_ok isImageEnclosurePred xs hpred
      have hu : truthy JValue.undefined = false := rfl
      rcases o with _ | mfound
      · refine ⟨cur, ?_, hc⟩
        simp [method4, hg, harr, ho, hu]
      · have hwm := wfVal_arr_mem xs hxs mfound (hmem mfound rfl)
        by_cases hf : (truthy mfound && truthy (jget mfound "$")) = true
        · refine ⟨jget (jget mfound "$") "url", ?_, ?_⟩
          · simp [method4, hg, harr, ho, hf]
          · exact attrStr_jget _ "url" (wfVal_jget _ "$" hwm.1) (Or.inr (Or.inl rfl))
        · refine ⟨cur, ?_, hc⟩
          simp [method4, hg, harr, ho, hf]

/-- C8 amended: the original claim fails for arbitrary shapes (a truthy
non-string type attribute makes the extractor throw, and a selected entry
without a url attribute makes it return undefined); for every feed item
that is an actual object of well-formed shape — type, url and @_url fields
hold strings where present and arrays contain no null or undefined
entries, as rss-parser output does — the extractor never throws and
returns a string or undefined, and it returns the empty string whenever
none of the four probed fields is present. -/
theorem claim_C8_amended (item : JValue) (hw : wfVal item = true)
    (hn : jNullish item = false) :
    (∃ v, extractMediaUrl item = .ok v ∧ attrStr v = true) ∧
    (truthy (jget item "media:content") = false → truthy (jget item "media") = false →
     truthy (jget item "media:thumbnail") = false → truthy (jget item "enclosure") = false →
     extractMediaUrl item = .ok (.str "")) := by
  constructor
  · obtain ⟨v1, h1, a1⟩ := method1_ok item (.str "") hw rfl
    obtain ⟨v2, h2, a2⟩ := method2_ok item v1 hw a1
    obtain ⟨v3, h3, a3⟩ := method3_ok item v2 hw a2
    obtain ⟨v4, h4, a4⟩ := method4_ok item v3 hw a3
    exact ⟨v4, by simp [extractMediaUrl, hn, h1, h2, h3, h4], a4⟩
  · intro g1 g2 g3 g4
    have m1 : method1 item (.str "") = .ok (.str "") := by
      simp [method1, g1]
    have m2 : method2 item (.str "") = .ok (.str "") := by
      simp [method2, g2]
    have m3 : method3 item (.str "") = .ok (.str "") := by
      simp [method3, g3]
    have m4 : method4 item (.str "") = .ok (.str "") := by
      simp [method4, g4]
    simp [extractMediaUrl, hn, m1, m2, m3, m4]

/-- Witness for C8 at the plain object with no media fields: the amended
theorem yields the empty string and an attribute-shaped result. -/
theorem claim_C8_witness :
    extractMediaUrl (JValue.obj []) = .ok (.str "") ∧
    (∃ v, extractMediaUrl (JValue.obj []) = .ok v ∧ attrStr v = true) :=
  ⟨(claim_C8_amended (JValue.obj []) (by simp [wfVal]) rfl).2 rfl rfl rfl rfl,
   (claim_C8_amended (JValue.obj []) (by simp [wfVal]) rfl).1⟩
